import Mathlib

/-!
# CompactSize (Bitcoin varint) codec — embedding of `src/src/lib.rs`

The crate exposes `VarInt::encode`, `VarInt::decode` and `VarInt::get_size`.
All three return `Result<_, std::io::Error>` but only ever build the `Ok`
variant; failure paths in the source are `panic!` (the `_ =>` match arms) or
out-of-bounds slice indexing (which also aborts).  The embedding keeps all
three observable outcomes apart.

Bytes are modelled as `Nat` (each `< 256` where it matters), `u64` values as
`Nat` with explicit `< 2 ^ 64` bounds.
-/

namespace VarInt

/-- Outcome of calling one of the Rust functions: `panic` models a
`panic!` / out-of-bounds abort, `err` a returned `Err`, `ok` a returned
`Ok`. -/
inductive Outcome (ε α : Type) where
  | panic : Outcome ε α
  | err : ε → Outcome ε α
  | ok : α → Outcome ε α
  deriving DecidableEq

/-- Whether an outcome is a returned `Err`. -/
def Outcome.isErr {ε α : Type} : Outcome ε α → Bool
  | .err _ => true
  | _ => false

/-- Byte `i` of the little-endian representation of `n`
(`n.to_le_bytes()[i]` in the source, for `n : u64`). -/
def leByte (n i : Nat) : Nat := n / 256 ^ i % 256

/-- `u64::to_le_bytes`: the eight little-endian bytes of `n`. -/
def to_le_bytes (n : Nat) : List Nat :=
  [leByte n 0, leByte n 1, leByte n 2, leByte n 3,
   leByte n 4, leByte n 5, leByte n 6, leByte n 7]

/-- `u64::from_le_bytes` generalised to a byte list: little-endian value. -/
def from_le_bytes : List Nat → Nat
  | [] => 0
  | b :: rest => b + 256 * from_le_bytes rest

/-- `VarInt::encode` from `src/src/lib.rs`.  The guards are the source's
half-open Rust ranges, tried in order:
`x <= 252`, `(253..0xffff)`, `(0x10000..0xffffffff)`,
`(0x100000000..u64::MAX)`; the final `_ => panic!` arm is `Outcome.panic`. -/
def encode (size : Nat) : Outcome Unit (List Nat) :=
  if size ≤ 252 then
    .ok [leByte size 0]
  else if 253 ≤ size ∧ size < 0xffff then
    .ok [0xfd, leByte size 0, leByte size 1]
  else if 0x10000 ≤ size ∧ size < 0xffffffff then
    .ok [0xfe, leByte size 0, leByte size 1, leByte size 2, leByte size 3]
  else if 0x100000000 ≤ size ∧ size < 0xffffffffffffffff then
    .ok (0xff :: to_le_bytes size)
  else
    .panic

/-- `VarInt::decode` from `src/src/lib.rs`.  The source indexes the slice
directly (`bytes[0]`, …, `bytes[8]`); an index past the end aborts, modelled
by matching off the required elements and yielding `Outcome.panic` when the
list is too short.  The discriminator arms are `x < 0xfd`, `x == 0xfd`,
`x == 0xfe`, `x == 0xff`, then `_ => panic!`. -/
def decode : List Nat → Outcome Unit Nat
  | [] => .panic
  | b0 :: rest =>
    if b0 < 0xfd then
      .ok (from_le_bytes [b0, 0, 0, 0, 0, 0, 0, 0])
    else if b0 = 0xfd then
      match rest with
      | b1 :: b2 :: _ => .ok (from_le_bytes [b1, b2, 0, 0, 0, 0, 0, 0])
      | _ => .panic
    else if b0 = 0xfe then
      match rest with
      | b1 :: b2 :: b3 :: b4 :: _ =>
        .ok (from_le_bytes [b1, b2, b3, b4, 0, 0, 0, 0])
      | _ => .panic
    else if b0 = 0xff then
      match rest with
      | b1 :: b2 :: b3 :: b4 :: b5 :: b6 :: b7 :: b8 :: _ =>
        .ok (from_le_bytes [b1, b2, b3, b4, b5, b6, b7, b8])
      | _ => .panic
    else
      .panic

/-- `VarInt::get_size` from `src/src/lib.rs`.  Note the fourth guard's
lower bound is `0x10000000` (seven zeros) in the source, not `0x100000000`. -/
def get_size (varint : Nat) : Outcome Unit Nat :=
  if varint ≤ 252 then
    .ok 1
  else if 253 ≤ varint ∧ varint < 0xffff then
    .ok 3
  else if 0x10000 ≤ varint ∧ varint < 0xffffffff then
    .ok 5
  else if 0x10000000 ≤ varint ∧ varint < 0xffffffffffffffff then
    .ok 9
  else
    .panic

/-- The number of bytes of input that the first (discriminator) byte of an
encoding promises: 1 below `0xfd`, else 3 / 5 / 9 for `0xfd` / `0xfe` /
`0xff`. -/
def classLen (b : Nat) : Nat :=
  if b < 0xfd then 1 else if b = 0xfd then 3 else if b = 0xfe then 5 else 9

/-! ## Concrete evaluations at the spec's boundary values -/

/-- Claim C1: the round-trip `decode(encode(v)) = v` fails on the source at
`v = 0xffff`: `encode` hits the `_ => panic!` arm there (the guard
`(253..0xffff)` excludes its upper bound), so no byte sequence is produced
for decoding, and `decode` returns no bytes-consumed count at all. -/
theorem encode_at_ffff_panics : encode 0xffff = Outcome.panic := by decide

/-- Claim C2: `encode` is not total over u64.  At exactly `0xffffffff` and
`0xffffffffffffffff` (and `0xffff`) no guard matches — the Rust ranges
`(0x10000..0xffffffff)` and `(0x100000000..u64::MAX)` exclude their upper
bounds — so the supposedly unreachable `_ => panic!` arm is reached. -/
theorem encode_not_total :
    encode 0xffffffff = Outcome.panic ∧
      encode 0xffffffffffffffff = Outcome.panic ∧
        encode 0xffff = Outcome.panic := by decide

/-- Claim C3: `get_size` does not agree with the length of `encode`.  At
`0xffffffff`, `get_size` answers `Ok 9` (its fourth guard starts at the
misspelled `0x10000000`) while `encode` panics, so there is no encoding
length to agree with; at `0xffff` `get_size` itself panics. -/
theorem get_size_disagrees_with_encode :
    get_size 0xffffffff = Outcome.ok 9 ∧
      encode 0xffffffff = Outcome.panic ∧
        get_size 0xffff = Outcome.panic := by decide

/-- Claim C4: the three canonical boundary encodings are not produced:
`encode` panics at `0xffff`, `0xffffffff` and `0xffffffffffffffff` instead
of returning `[0xfd,0xff,0xff]`, `[0xfe,0xff,0xff,0xff,0xff]` and
`0xff` followed by eight `0xff` bytes. -/
theorem encode_boundary_values_panic :
    encode 0xffff = Outcome.panic ∧
      encode 0xffffffff = Outcome.panic ∧
        encode 0xffffffffffffffff = Outcome.panic := by decide

/-- Claim C5: on `[0xfd, 0x03, 0x02]` the source's `decode` returns the bare
value `Ok(515)`; its result type carries no bytes-consumed component, so the
claimed pair `(515, 3)` is not what the code returns. -/
theorem decode_returns_bare_value : decode [0xfd, 0x03, 0x02] = Outcome.ok 515 := by
  decide

/-- Claim C6: on the truncated input `[0xfd, 0x01]` the source's `decode`
indexes `bytes[2]` out of bounds and aborts; it returns no `TruncatedInput`
(or any other) error value. -/
theorem decode_truncated_panics : decode [0xfd, 0x01] = Outcome.panic := by decide

/-- Claim C7: the spec's concrete length-class examples do hold on the code
(`encode 252 = [0xfc]`, `encode 253 = [0xfd,0xfd,0x00]`,
`encode 0x10000 = [0xfe,0,0,1,0]`), but the universal claim that every u64
gets a 1/3/5/9-byte encoding fails: at `0xffff` `encode` panics and returns
no byte sequence of any length. -/
theorem encode_examples_and_boundary :
    encode 252 = Outcome.ok [0xfc] ∧
      encode 253 = Outcome.ok [0xfd, 0xfd, 0x00] ∧
        encode 0x10000 = Outcome.ok [0xfe, 0x00, 0x00, 0x01, 0x00] ∧
          encode 0xffff = Outcome.panic := by decide

/-! ## Totality and purity facts about `decode` -/

/-- Claim C8: `decode` succeeds on every byte list whose length covers the
class promised by its first byte: all slice accesses are then in bounds and
the `_ => panic!` arm is unreachable, the four guards covering every
first byte below 256. -/
theorem decode_total_on_classLen (b0 : Nat) (rest : List Nat) (hb : b0 < 256)
    (hlen : classLen b0 ≤ (b0 :: rest).length) :
    ∃ v, decode (b0 :: rest) = Outcome.ok v := by
  by_cases h1 : b0 < 0xfd
  · exact ⟨from_le_bytes [b0, 0, 0, 0, 0, 0, 0, 0], by simp [decode, h1]⟩
  · have h2 : b0 = 0xfd ∨ b0 = 0xfe ∨ b0 = 0xff := by omega
    simp only [classLen, List.length_cons] at hlen
    rcases h2 with h | h | h <;> subst h
    · rw [if_neg (by omega), if_pos rfl] at hlen
      rcases rest with _ | ⟨b1, _ | ⟨b2, t⟩⟩
      · simp at hlen
      · simp at hlen
      · exact ⟨_, rfl⟩
    · rw [if_neg (by omega), if_neg (by omega), if_pos rfl] at hlen
      rcases rest with _ | ⟨b1, _ | ⟨b2, _ | ⟨b3, _ | ⟨b4, t⟩⟩⟩⟩
      · simp at hlen
      · simp at hlen
      · simp at hlen
      · simp at hlen
      · exact ⟨_, rfl⟩
    · rw [if_neg (by omega), if_neg (by omega), if_neg (by omega)] at hlen
      rcases rest with _ | ⟨b1, _ | ⟨b2, _ | ⟨b3, _ | ⟨b4, _ | ⟨b5, _ | ⟨b6, _ | ⟨b7, _ | ⟨b8, t⟩⟩⟩⟩⟩⟩⟩⟩
      · simp at hlen
      · simp at hlen
      · simp at hlen
      · simp at hlen
      · simp at hlen
      · simp at hlen
      · simp at hlen
      · simp at hlen
      · exact ⟨_, rfl⟩

/-- Witness for C8 at the concrete input `[0xfd, 0x03, 0x02]`. -/
theorem decode_total_on_classLen_witness :
    253 < 256 ∧ classLen 253 ≤ ([253, 3, 2] : List Nat).length ∧
      ∃ v, decode [253, 3, 2] = Outcome.ok v :=
  ⟨by decide, by decide, decode_total_on_classLen 253 [3, 2] (by decide) (by decide)⟩

/-- Claim C9: none of the three functions ever builds the `Err` variant:
every return is `Ok` (the failure paths are panics, not errors). -/
theorem never_returns_err :
    (∀ size : Nat, (encode size).isErr = false) ∧
      (∀ bytes : List Nat, (decode bytes).isErr = false) ∧
        (∀ v : Nat, (get_size v).isErr = false) := by
  refine ⟨fun size => ?_, fun bytes => ?_, fun v => ?_⟩
  · unfold encode
    repeat first | rfl | split
  · cases bytes with
    | nil => rfl
    | cons b0 rest =>
      simp only [decode]
      repeat first | rfl | split
  · unfold get_size
    repeat first | rfl | split

/-- Claim C10: `decode` reads only the class-length prefix selected by the
first byte: trailing bytes appended past that prefix leave the result
unchanged. -/
theorem decode_ignores_trailing (b0 : Nat) (rest extra : List Nat) (hb : b0 < 256)
    (hlen : classLen b0 ≤ (b0 :: rest).length) :
    decode ((b0 :: rest) ++ extra) = decode (b0 :: rest) := by
  by_cases h1 : b0 < 0xfd
  · simp [decode, h1, List.cons_append]
  · have h2 : b0 = 0xfd ∨ b0 = 0xfe ∨ b0 = 0xff := by omega
    simp only [classLen, List.length_cons] at hlen
    rcases h2 with h | h | h <;> subst h
    · rw [if_neg (by omega), if_pos rfl] at hlen
      rcases rest with _ | ⟨b1, _ | ⟨b2, t⟩⟩
      · simp at hlen
      · simp at hlen
      · rfl
    · rw [if_neg (by omega), if_neg (by omega), if_pos rfl] at hlen
      rcases rest with _ | ⟨b1, _ | ⟨b2, _ | ⟨b3, _ | ⟨b4, t⟩⟩⟩⟩
      · simp at hlen
      · simp at hlen
      · simp at hlen
      · simp at hlen
      · rfl
    · rw [if_neg (by omega), if_neg (by omega), if_neg (by omega)] at hlen
      rcases rest with _ | ⟨b1, _ | ⟨b2, _ | ⟨b3, _ | ⟨b4, _ | ⟨b5, _ | ⟨b6, _ | ⟨b7, _ | ⟨b8, t⟩⟩⟩⟩⟩⟩⟩⟩
      · simp at hlen
      · simp at hlen
      · simp at hlen
      · simp at hlen
      · simp at hlen
      · simp at hlen
      · simp at hlen
      · simp at hlen
      · rfl

/-- Witness for C10: appending `[9, 9]` after a complete `0xfd`-class
encoding does not change the decoded outcome. -/
theorem decode_ignores_trailing_witness :
    253 < 256 ∧ classLen 253 ≤ ([253, 3, 2] : List Nat).length ∧
      decode ([253, 3, 2] ++ [9, 9]) = decode [253, 3, 2] :=
  ⟨by decide, by decide, decode_ignores_trailing 253 [3, 2] [9, 9] (by decide) (by decide)⟩

/-! ## The round-trip on the values `encode` does handle

Away from the three boundary values on which `encode` panics, encoding
followed by decoding recovers the value; this isolates the round-trip
failure to exactly those boundaries. -/

/-- On every u64 except `0xffff`, `0xffffffff` and `0xffffffffffffffff`,
`encode` succeeds and `decode` recovers the encoded value. -/
theorem decode_after_encode (v : Nat) (hv : v < 2 ^ 64)
    (n1 : v ≠ 0xffff) (n2 : v ≠ 0xffffffff) (n3 : v ≠ 0xffffffffffffffff) :
    ∃ bs, encode v = Outcome.ok bs ∧ decode bs = Outcome.ok v := by
  by_cases c1 : v ≤ 252
  · refine ⟨[leByte v 0], ?_, ?_⟩
    · unfold encode
      rw [if_pos c1]
    · have hb : leByte v 0 = v := by
        simp only [leByte, pow_zero, Nat.div_one]
        omega
      rw [hb]
      have hlt : v < 0xfd := by omega
      simp [decode, hlt, from_le_bytes]
  · by_cases c2 : v < 0xffff
    · refine ⟨[0xfd, leByte v 0, leByte v 1], ?_, ?_⟩
      · unfold encode
        rw [if_neg c1, if_pos (⟨by omega, c2⟩ : 253 ≤ v ∧ v < 0xffff)]
      · simp only [decode, from_le_bytes]
        norm_num [leByte]
        omega
    · by_cases c3 : v < 0xffffffff
      · refine ⟨[0xfe, leByte v 0, leByte v 1, leByte v 2, leByte v 3], ?_, ?_⟩
        · unfold encode
          rw [if_neg c1, if_neg (by omega), if_pos (⟨by omega, c3⟩ : 0x10000 ≤ v ∧ v < 0xffffffff)]
        · simp only [decode, from_le_bytes]
          norm_num [leByte]
          omega
      · by_cases c4 : v < 0xffffffffffffffff
        · refine ⟨0xff :: to_le_bytes v, ?_, ?_⟩
          · unfold encode
            rw [if_neg c1, if_neg (by omega), if_neg (by omega),
              if_pos (⟨by omega, c4⟩ : 0x100000000 ≤ v ∧ v < 0xffffffffffffffff)]
          · simp only [to_le_bytes, decode, from_le_bytes]
            norm_num [leByte]
            omega
        · omega

end VarInt
